import Mathlib

/-!
Verification of the circuit-termination side-swap operation of
`netbox/circuits/views.py` (function `circuit_terminations_swap`,
lines 170-212), against its natural-language specification.

The embedding models the parts of the environment the view touches:

* a `CircuitTermination` row carries a primary key `id`, the owning
  circuit primary key `circuit`, and a side label `term_side`
  (`TERM_SIDE_A = A`, `TERM_SIDE_Z = Z`, plus the transient placeholder
  written as the character `_` in the source);
* the termination table is a list of rows; the object-relational
  mapper call `obj.save()` updates the row with the same primary key
  (inserting when absent) and raises an IntegrityError when the
  `(circuit, term_side)` unique constraint would be violated - modelled
  by `save` returning `Except Unit DB`;
* `transaction.atomic` is modelled by committing the final table only
  when every `save` in the block succeeds, and returning the unchanged
  pre-state otherwise (rollback);
* the request is modelled by whether it is a POST and whether the
  `ConfirmationForm` validates; the response is a small inductive:
  the error-message redirect, the success-message redirect, the
  rendered confirmation template, or an escaped exception that the
  hosting framework converts to a generic failure page;
* `get_object_or_404(Circuit, pk=pk)` is modelled by taking the primary
  key of an existing circuit (every claim quantifies over circuits that
  exist); fields of the row irrelevant to the swap (site, port speed,
  and so on) are omitted since the view never reads or writes them.

A step of the view that injects a persistence failure (for the
failure-injection property of the spec) is modelled by a fault oracle
`fault : Nat -> Bool` telling whether the n-th `save` of the request
fails; the view itself is the oracle specialised to never fail.
-/

/-- Side label of a circuit termination: `A`, `Z`, or the placeholder
character `_` used transiently by the swap view. -/
inductive TermSide where
  | A : TermSide
  | Z : TermSide
  | underscore : TermSide
  deriving DecidableEq, Repr

/-- `TERM_SIDE_A = 'A'` from `circuits/models.py`. -/
abbrev TERM_SIDE_A : TermSide := TermSide.A

/-- `TERM_SIDE_Z = 'Z'` from `circuits/models.py`. -/
abbrev TERM_SIDE_Z : TermSide := TermSide.Z

/-- A `CircuitTermination` row, restricted to the fields the swap view
reads or writes: primary key, owning circuit, and side label. -/
structure CircuitTermination where
  id : Nat
  circuit : Nat
  term_side : TermSide
  deriving DecidableEq, Repr

/-- The termination table: a list of rows. -/
abbrev DB := List CircuitTermination

/-- `CircuitTermination.objects.filter(circuit=c, term_side=s).first()`. -/
def firstTermination (db : DB) (c : Nat) (s : TermSide) : Option CircuitTermination :=
  (db.filter (fun t => decide (t.circuit = c ∧ t.term_side = s))).head?

/-- Row-level effect of an UPDATE by primary key: the row whose key
matches `t.id` becomes `t`, any other row is untouched. -/
def setRow (t : CircuitTermination) (r : CircuitTermination) : CircuitTermination :=
  if r.id = t.id then t else r

/-- Replace the row whose primary key matches `t.id` by `t`. -/
def updateRow (db : DB) (t : CircuitTermination) : DB :=
  db.map (setRow t)

/-- `t.save()`: raises (`.error`) when another row would collide with `t`
on the `(circuit, term_side)` unique constraint; otherwise updates the
row with primary key `t.id`, or inserts `t` when no such row exists. -/
def save (db : DB) (t : CircuitTermination) : Except Unit DB :=
  if ∃ r ∈ db, r.id ≠ t.id ∧ r.circuit = t.circuit ∧ r.term_side = t.term_side then
    .error ()
  else if ∃ r ∈ db, r.id = t.id then
    .ok (updateRow db t)
  else
    .ok (db ++ [t])

/-- `save` with an injected persistence fault: when `fault` is set the
write fails before touching the table. -/
def saveF (fault : Bool) (db : DB) (t : CircuitTermination) : Except Unit DB :=
  if fault then .error () else save db t

/-- The part of the inbound request the view inspects: whether
`request.method == POST`, and whether `ConfirmationForm(request.POST)`
validates. -/
structure SwapRequest where
  is_post : Bool
  form_valid : Bool
  deriving DecidableEq, Repr

/-- Outcome of the view, as seen by the client. The two redirects go to
the detail view of the circuit whose primary key they carry
(`redirect circuits:circuit pk`), with an error respectively success
message attached; `render_form` is the rendered confirmation template;
`server_error` is an exception escaping the view, which the hosting
framework surfaces as a generic failure. -/
inductive SwapResponse where
  | error_redirect : Nat → SwapResponse
  | success_redirect : Nat → SwapResponse
  | render_form : SwapResponse
  | server_error : SwapResponse
  deriving DecidableEq, Repr

/-- `circuit_terminations_swap` (views.py lines 170-212) with the fault
oracle threaded through its `save` calls: `fault n` tells whether the
n-th persistence step of this request fails. Returns the committed
table and the response. -/
def circuit_terminations_swap_fault (fault : Nat → Bool) (db : DB) (pk : Nat)
    (req : SwapRequest) : DB × SwapResponse :=
  let termination_a := firstTermination db pk TERM_SIDE_A
  let termination_z := firstTermination db pk TERM_SIDE_Z
  if termination_a = none ∧ termination_z = none then
    (db, .error_redirect pk)
  else if req.is_post then
    if req.form_valid then
      match termination_a, termination_z with
      | some ta, some tz =>
        -- Use a placeholder to avoid an IntegrityError on the
        -- (circuit, term_side) unique constraint; transaction.atomic
        -- commits all three writes or rolls the table back to `db`
        -- at the first failing write.
        match saveF (fault 0) db { ta with term_side := TermSide.underscore } with
        | .error _ => (db, .server_error)
        | .ok db1 =>
          match saveF (fault 1) db1 { tz with term_side := TermSide.A } with
          | .error _ => (db, .server_error)
          | .ok db2 =>
            match saveF (fault 2) db2 { ta with term_side := TermSide.Z } with
            | .error _ => (db, .server_error)
            | .ok db3 => (db3, .success_redirect pk)
      | some ta, none =>
        match saveF (fault 0) db { ta with term_side := TermSide.Z } with
        | .ok db1 => (db1, .success_redirect pk)
        | .error _ => (db, .server_error)
      | none, some tz =>
        match saveF (fault 0) db { tz with term_side := TermSide.A } with
        | .ok db1 => (db1, .success_redirect pk)
        | .error _ => (db, .server_error)
      | none, none => (db, .error_redirect pk)
    else
      (db, .render_form)
  else
    (db, .render_form)

/-- `circuit_terminations_swap` as written in the source: no injected
persistence faults. -/
def circuit_terminations_swap (db : DB) (pk : Nat) (req : SwapRequest) :
    DB × SwapResponse :=
  circuit_terminations_swap_fault (fun _ => false) db pk req

/-- Primary keys are unique across the termination table. -/
def uniquePks (db : DB) : Prop :=
  db.Pairwise (fun a b => a.id ≠ b.id)

/-- The `(circuit, term_side)` unique constraint: no two rows agree on
both the circuit and the side label. -/
def uniqueSides (db : DB) : Prop :=
  db.Pairwise (fun a b => ¬(a.circuit = b.circuit ∧ a.term_side = b.term_side))

/-- Well-formed table: unique primary keys and the unique constraint. -/
def wf (db : DB) : Prop :=
  uniquePks db ∧ uniqueSides db

/-- Every side label is one of the two enumerated values `A`, `Z`:
the placeholder does not occur. -/
def noPlaceholder (db : DB) : Prop :=
  ∀ t ∈ db, t.term_side ≠ TermSide.underscore

/-- Row lookup by primary key. -/
def rowById (db : DB) (i : Nat) : Option CircuitTermination :=
  db.find? (fun r => decide (r.id = i))

/-- Number of terminations owned by circuit `c`. -/
def terminationCount (db : DB) (c : Nat) : Nat :=
  (db.filter (fun r => decide (r.circuit = c))).length

/-- The relabeling the three-step transaction performs on the table,
as a single function on rows: the row of `ta` ends on side `Z`, the row
of `tz` ends on side `A`, all other rows are untouched. -/
def swapLabel (ta tz : CircuitTermination) (r : CircuitTermination) : CircuitTermination :=
  if r.id = ta.id then { ta with term_side := TermSide.Z }
  else if r.id = tz.id then { tz with term_side := TermSide.A }
  else r

instance (db : DB) : Decidable (uniquePks db) := by
  unfold uniquePks
  infer_instance

instance (db : DB) : Decidable (uniqueSides db) := by
  unfold uniqueSides
  infer_instance

instance (db : DB) : Decidable (wf db) := by
  unfold wf
  infer_instance

instance (db : DB) : Decidable (noPlaceholder db) := by
  unfold noPlaceholder
  infer_instance

theorem setRow_pos (t : CircuitTermination) {r : CircuitTermination} (h : r.id = t.id) :
    setRow t r = t :=
  if_pos h

theorem setRow_neg (t : CircuitTermination) {r : CircuitTermination} (h : r.id ≠ t.id) :
    setRow t r = r :=
  if_neg h

theorem setRow_id (t r : CircuitTermination) : (setRow t r).id = r.id := by
  unfold setRow
  by_cases h : r.id = t.id
  · rw [if_pos h, h]
  · rw [if_neg h]

theorem firstTermination_some {db : DB} {c : Nat} {s : TermSide} {t : CircuitTermination}
    (h : firstTermination db c s = some t) : t ∈ db ∧ t.circuit = c ∧ t.term_side = s := by
  have hh : (db.filter (fun t => decide (t.circuit = c ∧ t.term_side = s))).head? = some t := h
  have hmem : t ∈ db.filter (fun t => decide (t.circuit = c ∧ t.term_side = s)) :=
    List.mem_of_mem_head? (Option.mem_def.mpr hh)
  have := List.mem_filter.mp hmem
  refine ⟨this.1, ?_, ?_⟩
  · exact (of_decide_eq_true this.2).1
  · exact (of_decide_eq_true this.2).2

theorem firstTermination_none {db : DB} {c : Nat} {s : TermSide}
    (h : firstTermination db c s = none) :
    ∀ r ∈ db, ¬(r.circuit = c ∧ r.term_side = s) := by
  intro r hr hrs
  have hnil := List.head?_eq_none_iff.mp h
  have := List.filter_eq_nil_iff.mp hnil r hr
  exact this (decide_eq_true hrs)

theorem unique_id_row {db : DB} (hup : uniquePks db) {t : CircuitTermination}
    (hmem : t ∈ db) : ∀ r ∈ db, r.id = t.id → r = t := by
  intro r hr hid
  by_contra hne
  have hsym : Symmetric (fun a b : CircuitTermination => a.id ≠ b.id) :=
    fun a b h heq => h heq.symm
  exact List.Pairwise.forall hsym hup hr hmem hne hid

theorem unique_side_row {db : DB} (hus : uniqueSides db) {t : CircuitTermination}
    (hmem : t ∈ db) :
    ∀ r ∈ db, r.circuit = t.circuit → r.term_side = t.term_side → r = t := by
  intro r hr hc hs
  by_contra hne
  have hsym : Symmetric (fun a b : CircuitTermination =>
      ¬(a.circuit = b.circuit ∧ a.term_side = b.term_side)) :=
    fun a b h hcs => h ⟨hcs.1.symm, hcs.2.symm⟩
  exact List.Pairwise.forall hsym hus hr hmem hne ⟨hc, hs⟩

theorem uniquePks_nodup {db : DB} (h : uniquePks db) : db.Nodup :=
  h.imp (fun hid heq => hid (congrArg CircuitTermination.id heq))

theorem uniquePks_iff_nodup_ids {db : DB} :
    uniquePks db ↔ (db.map CircuitTermination.id).Nodup := by
  unfold uniquePks
  rw [List.Nodup, List.pairwise_map]

theorem filter_eq_single {db : DB} {p : CircuitTermination → Bool} {t : CircuitTermination}
    (hnd : db.Nodup) (hmem : t ∈ db) (hp : p t = true)
    (huniq : ∀ r ∈ db, p r = true → r = t) : db.filter p = [t] := by
  induction db with
  | nil => cases hmem
  | cons x xs ih =>
    have hnd' := List.nodup_cons.mp hnd
    by_cases hx : p x = true
    · have hxt : x = t := huniq x (List.mem_cons_self x xs) hx
      subst hxt
      have : xs.filter p = [] := by
        rw [List.filter_eq_nil_iff]
        intro r hr hpr
        exact hnd'.1 (huniq r (List.mem_cons_of_mem x hr) hpr ▸ hr)
      simp [List.filter_cons, hx, this]
    · have hmem' : t ∈ xs := by
        rcases List.mem_cons.mp hmem with h | h
        · exact absurd (h ▸ hp) hx
        · exact h
      rw [List.filter_cons_of_neg (by simpa using hx)]
      exact ih hnd'.2 hmem' (fun r hr hpr => huniq r (List.mem_cons_of_mem x hr) hpr)

theorem firstTermination_eq_of_unique {db : DB} {c : Nat} {s : TermSide}
    {t : CircuitTermination} (hnd : db.Nodup) (hmem : t ∈ db)
    (hc : t.circuit = c) (hs : t.term_side = s)
    (huniq : ∀ r ∈ db, r.circuit = c → r.term_side = s → r = t) :
    firstTermination db c s = some t := by
  unfold firstTermination
  rw [filter_eq_single hnd hmem (decide_eq_true ⟨hc, hs⟩)
    (fun r hr hpr => huniq r hr (of_decide_eq_true hpr).1 (of_decide_eq_true hpr).2)]
  rfl

theorem firstTermination_eq_none {db : DB} {c : Nat} {s : TermSide}
    (h : ∀ r ∈ db, r.circuit = c → r.term_side = s → False) :
    firstTermination db c s = none := by
  unfold firstTermination
  rw [List.head?_eq_none_iff, List.filter_eq_nil_iff]
  intro r hr hpr
  obtain ⟨h1, h2⟩ := of_decide_eq_true hpr
  exact h r hr h1 h2

theorem updateRow_id_map (db : DB) (t : CircuitTermination) :
    (updateRow db t).map CircuitTermination.id = db.map CircuitTermination.id := by
  unfold updateRow
  rw [List.map_map]
  apply List.map_congr_left
  intro r _
  exact setRow_id t r

theorem updateRow_uniquePks {db : DB} (t : CircuitTermination) (hup : uniquePks db) :
    uniquePks (updateRow db t) := by
  rw [uniquePks_iff_nodup_ids, updateRow_id_map]
  exact uniquePks_iff_nodup_ids.mp hup

theorem mem_updateRow {db : DB} {t r' : CircuitTermination}
    (h : r' ∈ updateRow db t) : ∃ r ∈ db, r' = setRow t r := by
  rcases List.mem_map.mp h with ⟨r, hr, hrr⟩
  exact ⟨r, hr, hrr.symm⟩

theorem mem_updateRow_of_mem {db : DB} {r : CircuitTermination} (t : CircuitTermination)
    (hr : r ∈ db) (hne : r.id ≠ t.id) : r ∈ updateRow db t := by
  have := List.mem_map_of_mem (setRow t) hr
  rwa [setRow_neg t hne] at this

theorem self_mem_updateRow {db : DB} {r : CircuitTermination} (hr : r ∈ db)
    (t : CircuitTermination) (hid : r.id = t.id) : t ∈ updateRow db t := by
  have := List.mem_map_of_mem (setRow t) hr
  rwa [setRow_pos t hid] at this

theorem save_ok {db : DB} {t : CircuitTermination}
    (hnc : ∀ r ∈ db, r.id ≠ t.id → ¬(r.circuit = t.circuit ∧ r.term_side = t.term_side))
    (hid : ∃ r ∈ db, r.id = t.id) :
    save db t = .ok (updateRow db t) := by
  unfold save
  rw [if_neg, if_pos hid]
  rintro ⟨r, hr, hne, hc, hs⟩
  exact hnc r hr hne ⟨hc, hs⟩

theorem save_ok_inv {db db' : DB} {t : CircuitTermination} (h : save db t = .ok db') :
    (∀ r ∈ db, r.id ≠ t.id → ¬(r.circuit = t.circuit ∧ r.term_side = t.term_side)) ∧
    (((∃ r ∈ db, r.id = t.id) ∧ db' = updateRow db t) ∨
      ((¬∃ r ∈ db, r.id = t.id) ∧ db' = db ++ [t])) := by
  unfold save at h
  split at h
  · cases h
  · rename_i hnc
    constructor
    · intro r hr hne hcs
      exact hnc ⟨r, hr, hne, hcs.1, hcs.2⟩
    · split at h
      · rename_i hid
        injection h with h2
        exact Or.inl ⟨hid, h2.symm⟩
      · rename_i hid
        injection h with h2
        exact Or.inr ⟨hid, h2.symm⟩

theorem save_uniquePks {db db' : DB} {t : CircuitTermination} (h : save db t = .ok db')
    (hup : uniquePks db) : uniquePks db' := by
  obtain ⟨hnc, hcase⟩ := save_ok_inv h
  rcases hcase with ⟨hid, rfl⟩ | ⟨hno, rfl⟩
  · exact updateRow_uniquePks t hup
  · unfold uniquePks
    rw [List.pairwise_append]
    refine ⟨hup, List.pairwise_singleton _ _, ?_⟩
    intro a ha b hb
    rw [List.mem_singleton.mp hb]
    exact fun heq => hno ⟨a, ha, heq⟩

theorem save_uniqueSides {db db' : DB} {t : CircuitTermination} (h : save db t = .ok db')
    (hup : uniquePks db) (hus : uniqueSides db) : uniqueSides db' := by
  obtain ⟨hnc, hcase⟩ := save_ok_inv h
  rcases hcase with ⟨hid, rfl⟩ | ⟨hno, rfl⟩
  · unfold updateRow uniqueSides
    rw [List.pairwise_map]
    refine List.Pairwise.imp_of_mem ?_ hus
    intro a b ha hb hab
    by_cases haid : a.id = t.id <;> by_cases hbid : b.id = t.id
    · have hba : b = a := unique_id_row hup ha b hb (hbid.trans haid.symm)
      subst hba
      exact (hab ⟨rfl, rfl⟩).elim
    · rw [setRow_pos t haid, setRow_neg t hbid]
      intro hcs
      exact hnc b hb hbid ⟨hcs.1.symm, hcs.2.symm⟩
    · rw [setRow_neg t haid, setRow_pos t hbid]
      intro hcs
      exact hnc a ha haid ⟨hcs.1, hcs.2⟩
    · rw [setRow_neg t haid, setRow_neg t hbid]
      exact hab
  · unfold uniqueSides
    rw [List.pairwise_append]
    refine ⟨hus, List.pairwise_singleton _ _, ?_⟩
    intro a ha b hb
    rw [List.mem_singleton.mp hb]
    exact hnc a ha (fun heq => hno ⟨a, ha, heq⟩)

theorem save_noPlaceholder {db db' : DB} {t : CircuitTermination} (h : save db t = .ok db')
    (hnp : noPlaceholder db) (ht : t.term_side ≠ TermSide.underscore) :
    noPlaceholder db' := by
  obtain ⟨-, hcase⟩ := save_ok_inv h
  rcases hcase with ⟨-, rfl⟩ | ⟨-, rfl⟩
  · intro r' hr'
    obtain ⟨r, hr, hrr⟩ := mem_updateRow hr'
    subst hrr
    by_cases hrid : r.id = t.id
    · rw [setRow_pos t hrid]; exact ht
    · rw [setRow_neg t hrid]; exact hnp r hr
  · intro r' hr'
    rcases List.mem_append.mp hr' with hmem | hmem
    · exact hnp r' hmem
    · rw [List.mem_singleton.mp hmem]; exact ht

theorem save_frame {db db' : DB} {t : CircuitTermination} (h : save db t = .ok db')
    (hup : uniquePks db) (hid : ∃ r ∈ db, r.id = t.id ∧ r.circuit = t.circuit) :
    db'.map (fun r => (r.id, r.circuit)) = db.map (fun r => (r.id, r.circuit)) := by
  obtain ⟨-, hcase⟩ := save_ok_inv h
  rcases hcase with ⟨-, rfl⟩ | ⟨hno, rfl⟩
  · unfold updateRow
    rw [List.map_map]
    apply List.map_congr_left
    intro r hr
    by_cases hrid : r.id = t.id
    · obtain ⟨r0, hr0, hr0id, hr0c⟩ := hid
      have hrr0 : r = r0 := unique_id_row hup hr0 r hr (hrid.trans hr0id.symm)
      simp only [Function.comp_apply, setRow_pos t hrid]
      rw [hrid, hrr0, ← hr0c]
    · simp only [Function.comp_apply, setRow_neg t hrid]
  · obtain ⟨r0, hr0, hr0id, -⟩ := hid
    exact absurd ⟨r0, hr0, hr0id⟩ hno

theorem pairmap_length {db db' : DB}
    (h : db'.map (fun r => (r.id, r.circuit)) = db.map (fun r => (r.id, r.circuit))) :
    db'.length = db.length := by
  have h2 := congrArg List.length h
  simpa using h2

theorem pairmap_count {db db' : DB}
    (h : db'.map (fun r => (r.id, r.circuit)) = db.map (fun r => (r.id, r.circuit)))
    (c : Nat) : terminationCount db' c = terminationCount db c := by
  unfold terminationCount
  rw [← List.countP_eq_length_filter, ← List.countP_eq_length_filter]
  have h2 := congrArg (List.countP (fun pr : Nat × Nat => decide (pr.2 = c))) h
  rw [List.countP_map, List.countP_map] at h2
  exact h2

theorem pairmap_ids {db db' : DB}
    (h : db'.map (fun r => (r.id, r.circuit)) = db.map (fun r => (r.id, r.circuit))) :
    db'.map CircuitTermination.id = db.map CircuitTermination.id := by
  have h2 := congrArg (List.map Prod.fst) h
  rw [List.map_map, List.map_map] at h2
  exact h2

theorem pairmap_uniquePks {db db' : DB}
    (h : db'.map (fun r => (r.id, r.circuit)) = db.map (fun r => (r.id, r.circuit)))
    (hup : uniquePks db) : uniquePks db' := by
  rw [uniquePks_iff_nodup_ids] at hup ⊢
  rw [pairmap_ids h]
  exact hup

theorem pairmap_mem {db db' : DB}
    (h : db'.map (fun r => (r.id, r.circuit)) = db.map (fun r => (r.id, r.circuit)))
    {r : CircuitTermination} (hr : r ∈ db) :
    ∃ r' ∈ db', r'.id = r.id ∧ r'.circuit = r.circuit := by
  have hmem : (r.id, r.circuit) ∈ db'.map (fun r => (r.id, r.circuit)) := by
    rw [h]
    exact List.mem_map_of_mem _ hr
  rcases List.mem_map.mp hmem with ⟨r', hr', heq⟩
  exact ⟨r', hr', congrArg Prod.fst heq, congrArg Prod.snd heq⟩

theorem distinct_pks_of_sides {db : DB} {pk : Nat} {ta tz : CircuitTermination}
    (hup : uniquePks db)
    (ha : firstTermination db pk TERM_SIDE_A = some ta)
    (hz : firstTermination db pk TERM_SIDE_Z = some tz) : tz.id ≠ ta.id := by
  obtain ⟨hamem, -, has⟩ := firstTermination_some ha
  obtain ⟨hzmem, -, hzs⟩ := firstTermination_some hz
  intro h
  have htza : tz = ta := unique_id_row hup hamem tz hzmem h
  rw [htza, has] at hzs
  cases hzs

theorem swap_both_steps {db : DB} {pk : Nat} {ta tz : CircuitTermination}
    (hwf : wf db) (hnp : noPlaceholder db)
    (ha : firstTermination db pk TERM_SIDE_A = some ta)
    (hz : firstTermination db pk TERM_SIDE_Z = some tz) :
    save db { ta with term_side := TermSide.underscore } =
      .ok (updateRow db { ta with term_side := TermSide.underscore }) ∧
    save (updateRow db { ta with term_side := TermSide.underscore })
        { tz with term_side := TermSide.A } =
      .ok (updateRow (updateRow db { ta with term_side := TermSide.underscore })
        { tz with term_side := TermSide.A }) ∧
    save (updateRow (updateRow db { ta with term_side := TermSide.underscore })
        { tz with term_side := TermSide.A }) { ta with term_side := TermSide.Z } =
      .ok (updateRow (updateRow (updateRow db { ta with term_side := TermSide.underscore })
        { tz with term_side := TermSide.A }) { ta with term_side := TermSide.Z }) ∧
    updateRow (updateRow (updateRow db { ta with term_side := TermSide.underscore })
        { tz with term_side := TermSide.A }) { ta with term_side := TermSide.Z } =
      db.map (swapLabel ta tz) := by
  obtain ⟨hup, hus⟩ := hwf
  obtain ⟨hamem, hac, has⟩ := firstTermination_some ha
  obtain ⟨hzmem, hzc, hzs⟩ := firstTermination_some hz
  have hneid : tz.id ≠ ta.id := distinct_pks_of_sides hup ha hz
  have step1 : save db { ta with term_side := TermSide.underscore } =
      .ok (updateRow db { ta with term_side := TermSide.underscore }) := by
    apply save_ok
    · intro r hr _ hcs
      exact hnp r hr hcs.2
    · exact ⟨ta, hamem, rfl⟩
  have step2 : save (updateRow db { ta with term_side := TermSide.underscore })
      { tz with term_side := TermSide.A } =
      .ok (updateRow (updateRow db { ta with term_side := TermSide.underscore })
        { tz with term_side := TermSide.A }) := by
    apply save_ok
    · intro r' hr' hne hcs
      obtain ⟨r, hr, hrr⟩ := mem_updateRow hr'
      subst hrr
      by_cases hrid : r.id = ta.id
      · rw [setRow_pos { ta with term_side := TermSide.underscore } hrid] at hcs
        cases hcs.2
      · rw [setRow_neg { ta with term_side := TermSide.underscore } hrid] at hcs hne
        have hc1 : r.circuit = tz.circuit := hcs.1
        have hs1 : r.term_side = TermSide.A := hcs.2
        have hreq : r = ta :=
          unique_side_row hus hamem r hr (by rw [hc1, hzc, hac]) (by rw [hs1, has])
        exact hrid (congrArg CircuitTermination.id hreq)
    · exact ⟨tz, mem_updateRow_of_mem _ hzmem hneid, rfl⟩
  have step3 : save (updateRow (updateRow db { ta with term_side := TermSide.underscore })
      { tz with term_side := TermSide.A }) { ta with term_side := TermSide.Z } =
      .ok (updateRow (updateRow (updateRow db { ta with term_side := TermSide.underscore })
        { tz with term_side := TermSide.A }) { ta with term_side := TermSide.Z }) := by
    apply save_ok
    · intro r'' hr'' hne hcs
      obtain ⟨r1, hr1, hr1eq⟩ := mem_updateRow hr''
      subst hr1eq
      by_cases h1 : r1.id = tz.id
      · rw [setRow_pos { tz with term_side := TermSide.A } h1] at hcs
        cases hcs.2
      · rw [setRow_neg { tz with term_side := TermSide.A } h1] at hcs hne
        obtain ⟨r, hr, hreq⟩ := mem_updateRow hr1
        by_cases h2 : r.id = ta.id
        · rw [setRow_pos { ta with term_side := TermSide.underscore } h2] at hreq
          rw [hreq] at hne
          exact hne rfl
        · rw [setRow_neg { ta with term_side := TermSide.underscore } h2] at hreq
          subst hreq
          have hc1 : r1.circuit = ta.circuit := hcs.1
          have hs1 : r1.term_side = TermSide.Z := hcs.2
          have hreq2 : r1 = tz :=
            unique_side_row hus hzmem r1 hr (by rw [hc1, hac, hzc]) (by rw [hs1, hzs])
          exact h1 (congrArg CircuitTermination.id hreq2)
    · refine ⟨{ ta with term_side := TermSide.underscore }, ?_, rfl⟩
      apply mem_updateRow_of_mem
      · exact self_mem_updateRow hamem _ rfl
      · exact fun h => hneid h.symm
  refine ⟨step1, step2, step3, ?_⟩
  unfold updateRow
  rw [List.map_map, List.map_map]
  apply List.map_congr_left
  intro r hr
  simp only [Function.comp_apply]
  unfold swapLabel
  by_cases h1 : r.id = ta.id
  · have e1 : setRow { ta with term_side := TermSide.underscore } r =
        { ta with term_side := TermSide.underscore } := setRow_pos _ h1
    have e2 : setRow { tz with term_side := TermSide.A }
        ({ ta with term_side := TermSide.underscore } : CircuitTermination) =
        { ta with term_side := TermSide.underscore } := setRow_neg _ (fun h => hneid h.symm)
    have e3 : setRow { ta with term_side := TermSide.Z }
        ({ ta with term_side := TermSide.underscore } : CircuitTermination) =
        { ta with term_side := TermSide.Z } := setRow_pos _ rfl
    rw [e1, e2, e3, if_pos h1]
  · by_cases h2 : r.id = tz.id
    · have e1 : setRow { ta with term_side := TermSide.underscore } r = r := setRow_neg _ h1
      have e2 : setRow { tz with term_side := TermSide.A } r =
          { tz with term_side := TermSide.A } := setRow_pos _ h2
      have e3 : setRow { ta with term_side := TermSide.Z }
          ({ tz with term_side := TermSide.A } : CircuitTermination) =
          { tz with term_side := TermSide.A } := setRow_neg _ hneid
      rw [e1, e2, e3, if_neg h1, if_pos h2]
    · have e1 : setRow { ta with term_side := TermSide.underscore } r = r := setRow_neg _ h1
      have e2 : setRow { tz with term_side := TermSide.A } r = r := setRow_neg _ h2
      have e3 : setRow { ta with term_side := TermSide.Z } r = r := setRow_neg _ h1
      rw [e1, e2, e3, if_neg h1, if_neg h2]

theorem saveF_false {db : DB} {t : CircuitTermination} : saveF false db t = save db t := by
  unfold saveF
  simp

theorem saveF_ok_inv {f : Bool} {db db' : DB} {t : CircuitTermination}
    (h : saveF f db t = .ok db') : save db t = .ok db' := by
  unfold saveF at h
  split at h
  · cases h
  · exact h

theorem swap_view_guard {fault : Nat → Bool} {db : DB} {pk : Nat}
    (hA : firstTermination db pk TERM_SIDE_A = none)
    (hZ : firstTermination db pk TERM_SIDE_Z = none) (req : SwapRequest) :
    circuit_terminations_swap_fault fault db pk req = (db, .error_redirect pk) := by
  unfold circuit_terminations_swap_fault
  rw [hA, hZ]
  simp

theorem swap_view_render {fault : Nat → Bool} {db : DB} {pk : Nat} {req : SwapRequest}
    (hne : ¬(firstTermination db pk TERM_SIDE_A = none ∧
      firstTermination db pk TERM_SIDE_Z = none))
    (hreq : req.is_post = false ∨ req.form_valid = false) :
    circuit_terminations_swap_fault fault db pk req = (db, .render_form) := by
  unfold circuit_terminations_swap_fault
  rw [if_neg hne]
  rcases hreq with h | h <;> simp [h]

theorem swap_view_both {fault : Nat → Bool} {db : DB} {pk : Nat} {ta tz : CircuitTermination}
    (hA : firstTermination db pk TERM_SIDE_A = some ta)
    (hZ : firstTermination db pk TERM_SIDE_Z = some tz) :
    circuit_terminations_swap_fault fault db pk ⟨true, true⟩ =
      match saveF (fault 0) db { ta with term_side := TermSide.underscore } with
      | .error _ => (db, .server_error)
      | .ok db1 =>
        match saveF (fault 1) db1 { tz with term_side := TermSide.A } with
        | .error _ => (db, .server_error)
        | .ok db2 =>
          match saveF (fault 2) db2 { ta with term_side := TermSide.Z } with
          | .error _ => (db, .server_error)
          | .ok db3 => (db3, .success_redirect pk) := by
  unfold circuit_terminations_swap_fault
  rw [hA, hZ]
  simp

theorem swap_view_onlyA {fault : Nat → Bool} {db : DB} {pk : Nat} {ta : CircuitTermination}
    (hA : firstTermination db pk TERM_SIDE_A = some ta)
    (hZ : firstTermination db pk TERM_SIDE_Z = none) :
    circuit_terminations_swap_fault fault db pk ⟨true, true⟩ =
      match saveF (fault 0) db { ta with term_side := TermSide.Z } with
      | .ok db1 => (db1, .success_redirect pk)
      | .error _ => (db, .server_error) := by
  unfold circuit_terminations_swap_fault
  rw [hA, hZ]
  simp

theorem swap_view_onlyZ {fault : Nat → Bool} {db : DB} {pk : Nat} {tz : CircuitTermination}
    (hA : firstTermination db pk TERM_SIDE_A = none)
    (hZ : firstTermination db pk TERM_SIDE_Z = some tz) :
    circuit_terminations_swap_fault fault db pk ⟨true, true⟩ =
      match saveF (fault 0) db { tz with term_side := TermSide.A } with
      | .ok db1 => (db1, .success_redirect pk)
      | .error _ => (db, .server_error) := by
  unfold circuit_terminations_swap_fault
  rw [hA, hZ]
  simp

theorem swap_both_commit {fault : Nat → Bool} {db : DB} {pk : Nat} {ta tz : CircuitTermination}
    (hwf : wf db) (hnp : noPlaceholder db)
    (hA : firstTermination db pk TERM_SIDE_A = some ta)
    (hZ : firstTermination db pk TERM_SIDE_Z = some tz)
    (f0 : fault 0 = false) (f1 : fault 1 = false) (f2 : fault 2 = false) :
    circuit_terminations_swap_fault fault db pk ⟨true, true⟩ =
      (db.map (swapLabel ta tz), .success_redirect pk) := by
  obtain ⟨s1, s2, s3, heq⟩ := swap_both_steps hwf hnp hA hZ
  rw [swap_view_both hA hZ, f0, f1, f2]
  simp only [saveF_false, s1, s2, s3, heq]

theorem swap_both_abort {fault : Nat → Bool} {db : DB} {pk : Nat} {ta tz : CircuitTermination}
    (hwf : wf db) (hnp : noPlaceholder db)
    (hA : firstTermination db pk TERM_SIDE_A = some ta)
    (hZ : firstTermination db pk TERM_SIDE_Z = some tz)
    (hf : fault 0 = true ∨ fault 1 = true ∨ fault 2 = true) :
    circuit_terminations_swap_fault fault db pk ⟨true, true⟩ = (db, .server_error) := by
  obtain ⟨s1, s2, s3, heq⟩ := swap_both_steps hwf hnp hA hZ
  rw [swap_view_both hA hZ]
  cases hf0 : fault 0 with
  | true => simp [saveF]
  | false =>
    simp only [saveF_false, s1]
    cases hf1 : fault 1 with
    | true => simp [saveF]
    | false =>
      simp only [saveF_false, s2]
      have hf2 : fault 2 = true := by
        rcases hf with h | h | h
        · rw [h] at hf0; cases hf0
        · rw [h] at hf1; cases hf1
        · exact h
      rw [hf2]
      simp [saveF]

theorem swapLabel_id (ta tz r : CircuitTermination) : (swapLabel ta tz r).id = r.id := by
  unfold swapLabel
  by_cases h1 : r.id = ta.id
  · rw [if_pos h1]; exact h1.symm
  · rw [if_neg h1]
    by_cases h2 : r.id = tz.id
    · rw [if_pos h2]; exact h2.symm
    · rw [if_neg h2]

theorem swapLabel_ta (ta tz : CircuitTermination) :
    swapLabel ta tz ta = { ta with term_side := TermSide.Z } := by
  unfold swapLabel
  rw [if_pos rfl]

theorem swapLabel_tz {ta tz : CircuitTermination} (hne : tz.id ≠ ta.id) :
    swapLabel ta tz tz = { tz with term_side := TermSide.A } := by
  unfold swapLabel
  rw [if_neg hne, if_pos rfl]

theorem swapLabel_other {ta tz r : CircuitTermination} (h1 : r.id ≠ ta.id)
    (h2 : r.id ≠ tz.id) : swapLabel ta tz r = r := by
  unfold swapLabel
  rw [if_neg h1, if_neg h2]

theorem swapLabel_noPlaceholder {db : DB} {ta tz : CircuitTermination}
    (hnp : noPlaceholder db) : noPlaceholder (db.map (swapLabel ta tz)) := by
  intro r' hr'
  rcases List.mem_map.mp hr' with ⟨r, hr, rfl⟩
  unfold swapLabel
  by_cases h1 : r.id = ta.id
  · rw [if_pos h1]; intro h; cases h
  · rw [if_neg h1]
    by_cases h2 : r.id = tz.id
    · rw [if_pos h2]; intro h; cases h
    · rw [if_neg h2]; exact hnp r hr

theorem swapLabel_wf {db : DB} {pk : Nat} {ta tz : CircuitTermination}
    (hwf : wf db) (hnp : noPlaceholder db)
    (hA : firstTermination db pk TERM_SIDE_A = some ta)
    (hZ : firstTermination db pk TERM_SIDE_Z = some tz) :
    wf (db.map (swapLabel ta tz)) := by
  obtain ⟨s1, s2, s3, heq⟩ := swap_both_steps hwf hnp hA hZ
  rw [← heq]
  obtain ⟨hup, hus⟩ := hwf
  have h1p := save_uniquePks s1 hup
  have h1s := save_uniqueSides s1 hup hus
  have h2p := save_uniquePks s2 h1p
  have h2s := save_uniqueSides s2 h1p h1s
  exact ⟨save_uniquePks s3 h2p, save_uniqueSides s3 h2p h2s⟩

theorem eta_side {t : CircuitTermination} {s : TermSide} (h : t.term_side = s) :
    ({ t with term_side := s } : CircuitTermination) = t := by
  cases t with
  | mk i c ts =>
    have h2 : ts = s := h
    subst h2
    rfl

theorem rowById_map {db : DB} {h : CircuitTermination → CircuitTermination}
    (hid : ∀ r, (h r).id = r.id) (i : Nat) :
    rowById (db.map h) i = (rowById db i).map h := by
  induction db with
  | nil => rfl
  | cons x xs ih =>
    unfold rowById at ih ⊢
    simp only [List.map_cons, List.find?_cons]
    by_cases hx : x.id = i
    · simp [hid x, hx]
    · simp [hid x, hx, ih]

theorem rowById_eq_of_mem {db : DB} {t : CircuitTermination} :
    uniquePks db → t ∈ db → rowById db t.id = some t := by
  induction db with
  | nil => intro _ hmem; cases hmem
  | cons x xs ih =>
    intro hup hmem
    obtain ⟨hx, hxs⟩ := List.pairwise_cons.mp hup
    unfold rowById
    by_cases hxt : x.id = t.id
    · rcases List.mem_cons.mp hmem with rfl | hmem2
      · simp [List.find?_cons]
      · exact absurd hxt (hx t hmem2)
    · rcases List.mem_cons.mp hmem with rfl | hmem2
      · exact absurd rfl hxt
      · simp only [List.find?_cons, decide_eq_false hxt]
        exact ih hxs hmem2

theorem swap_onlyA_commit {fault : Nat → Bool} {db : DB} {pk : Nat} {ta : CircuitTermination}
    (hA : firstTermination db pk TERM_SIDE_A = some ta)
    (hZ : firstTermination db pk TERM_SIDE_Z = none) (f0 : fault 0 = false) :
    circuit_terminations_swap_fault fault db pk ⟨true, true⟩ =
      (updateRow db { ta with term_side := TermSide.Z }, .success_redirect pk) := by
  obtain ⟨hamem, hac, has⟩ := firstTermination_some hA
  have hsave : save db { ta with term_side := TermSide.Z } =
      .ok (updateRow db { ta with term_side := TermSide.Z }) := by
    apply save_ok
    · intro r hr hne hcs
      have hc1 : r.circuit = ta.circuit := hcs.1
      have hs1 : r.term_side = TermSide.Z := hcs.2
      exact firstTermination_none hZ r hr ⟨hc1.trans hac, hs1⟩
    · exact ⟨ta, hamem, rfl⟩
  rw [swap_view_onlyA hA hZ, f0]
  simp only [saveF_false, hsave]

theorem swap_onlyZ_commit {fault : Nat → Bool} {db : DB} {pk : Nat} {tz : CircuitTermination}
    (hA : firstTermination db pk TERM_SIDE_A = none)
    (hZ : firstTermination db pk TERM_SIDE_Z = some tz) (f0 : fault 0 = false) :
    circuit_terminations_swap_fault fault db pk ⟨true, true⟩ =
      (updateRow db { tz with term_side := TermSide.A }, .success_redirect pk) := by
  obtain ⟨hzmem, hzc, hzs⟩ := firstTermination_some hZ
  have hsave : save db { tz with term_side := TermSide.A } =
      .ok (updateRow db { tz with term_side := TermSide.A }) := by
    apply save_ok
    · intro r hr hne hcs
      have hc1 : r.circuit = tz.circuit := hcs.1
      have hs1 : r.term_side = TermSide.A := hcs.2
      exact firstTermination_none hA r hr ⟨hc1.trans hzc, hs1⟩
    · exact ⟨tz, hzmem, rfl⟩
  rw [swap_view_onlyZ hA hZ, f0]
  simp only [saveF_false, hsave]

theorem only_termination_A {db : DB} {pk : Nat} {ta : CircuitTermination}
    (hwf : wf db) (hnp : noPlaceholder db)
    (hA : firstTermination db pk TERM_SIDE_A = some ta)
    (hZ : firstTermination db pk TERM_SIDE_Z = none) :
    ∀ r ∈ db, r.circuit = pk → r = ta := by
  obtain ⟨hup, hus⟩ := hwf
  obtain ⟨hamem, hac, has⟩ := firstTermination_some hA
  intro r hr hc
  cases hrs : r.term_side with
  | A => exact unique_side_row hus hamem r hr (by rw [hc, hac]) (by rw [hrs, has])
  | Z => exact absurd ⟨hc, hrs⟩ (firstTermination_none hZ r hr)
  | underscore => exact absurd hrs (hnp r hr)

theorem only_termination_Z {db : DB} {pk : Nat} {tz : CircuitTermination}
    (hwf : wf db) (hnp : noPlaceholder db)
    (hA : firstTermination db pk TERM_SIDE_A = none)
    (hZ : firstTermination db pk TERM_SIDE_Z = some tz) :
    ∀ r ∈ db, r.circuit = pk → r = tz := by
  obtain ⟨hup, hus⟩ := hwf
  obtain ⟨hzmem, hzc, hzs⟩ := firstTermination_some hZ
  intro r hr hc
  cases hrs : r.term_side with
  | A => exact absurd ⟨hc, hrs⟩ (firstTermination_none hA r hr)
  | Z => exact unique_side_row hus hzmem r hr (by rw [hc, hzc]) (by rw [hrs, hzs])
  | underscore => exact absurd hrs (hnp r hr)

theorem filter_circuit_updateRow_single {db : DB} {pk : Nat} {t0 t1 : CircuitTermination}
    (hup : uniquePks db) (hmem : t0 ∈ db) (hc : t0.circuit = pk)
    (huniq : ∀ r ∈ db, r.circuit = pk → r = t0)
    (hid : t0.id = t1.id) (hc1 : t1.circuit = pk) :
    (updateRow db t1).filter (fun r => decide (r.circuit = pk)) = [t1] := by
  unfold updateRow
  rw [List.filter_map]
  have hcong : ∀ r ∈ db, ((fun r => decide (r.circuit = pk)) ∘ setRow t1) r =
      (fun r => decide (r.circuit = pk)) r := by
    intro r hr
    by_cases hrid : r.id = t1.id
    · have hrt0 : r = t0 := unique_id_row hup hmem r hr (hrid.trans hid.symm)
      simp only [Function.comp_apply, setRow_pos t1 hrid]
      rw [hc1, hrt0, hc]
    · simp only [Function.comp_apply, setRow_neg t1 hrid]
  rw [List.filter_congr hcong]
  have huniq2 : ∀ r ∈ db, decide (r.circuit = pk) = true → r = t0 :=
    fun r hr hpr => huniq r hr (of_decide_eq_true hpr)
  rw [filter_eq_single (uniquePks_nodup hup) hmem (decide_eq_true hc) huniq2]
  simp [setRow_pos t1 hid]

theorem firstTermination_swapLabel_A {db : DB} {pk : Nat} {ta tz : CircuitTermination}
    (hwf : wf db) (hnp : noPlaceholder db)
    (hA : firstTermination db pk TERM_SIDE_A = some ta)
    (hZ : firstTermination db pk TERM_SIDE_Z = some tz) :
    firstTermination (db.map (swapLabel ta tz)) pk TERM_SIDE_A =
      some { tz with term_side := TermSide.A } := by
  have hwf1 := swapLabel_wf hwf hnp hA hZ
  obtain ⟨hup, hus⟩ := hwf
  obtain ⟨hamem, hac, has⟩ := firstTermination_some hA
  obtain ⟨hzmem, hzc, hzs⟩ := firstTermination_some hZ
  have hneid := distinct_pks_of_sides hup hA hZ
  refine firstTermination_eq_of_unique (uniquePks_nodup hwf1.1) ?_ hzc rfl ?_
  · have := List.mem_map_of_mem (swapLabel ta tz) hzmem
    rwa [swapLabel_tz hneid] at this
  · intro r' hr' hc hs
    rcases List.mem_map.mp hr' with ⟨r, hr, rfl⟩
    by_cases h1 : r.id = ta.id
    · unfold swapLabel at hs
      rw [if_pos h1] at hs
      cases hs
    · by_cases h2 : r.id = tz.id
      · unfold swapLabel
        rw [if_neg h1, if_pos h2]
      · rw [swapLabel_other h1 h2] at hc hs ⊢
        have hrta : r = ta := unique_side_row hus hamem r hr (by rw [hc, hac]) (by rw [hs, has])
        exact absurd (congrArg CircuitTermination.id hrta) h1

theorem firstTermination_swapLabel_Z {db : DB} {pk : Nat} {ta tz : CircuitTermination}
    (hwf : wf db) (hnp : noPlaceholder db)
    (hA : firstTermination db pk TERM_SIDE_A = some ta)
    (hZ : firstTermination db pk TERM_SIDE_Z = some tz) :
    firstTermination (db.map (swapLabel ta tz)) pk TERM_SIDE_Z =
      some { ta with term_side := TermSide.Z } := by
  have hwf1 := swapLabel_wf hwf hnp hA hZ
  obtain ⟨hup, hus⟩ := hwf
  obtain ⟨hamem, hac, has⟩ := firstTermination_some hA
  obtain ⟨hzmem, hzc, hzs⟩ := firstTermination_some hZ
  have hneid := distinct_pks_of_sides hup hA hZ
  refine firstTermination_eq_of_unique (uniquePks_nodup hwf1.1) ?_ hac rfl ?_
  · have := List.mem_map_of_mem (swapLabel ta tz) hamem
    rwa [swapLabel_ta ta tz] at this
  · intro r' hr' hc hs
    rcases List.mem_map.mp hr' with ⟨r, hr, rfl⟩
    by_cases h1 : r.id = ta.id
    · unfold swapLabel
      rw [if_pos h1]
    · by_cases h2 : r.id = tz.id
      · unfold swapLabel at hs
        rw [if_neg h1, if_pos h2] at hs
        cases hs
      · rw [swapLabel_other h1 h2] at hc hs ⊢
        have hrtz : r = tz := unique_side_row hus hzmem r hr (by rw [hc, hzc]) (by rw [hs, hzs])
        exact absurd (congrArg CircuitTermination.id hrtz) h2

theorem firstTermination_updateA_none {db : DB} {pk : Nat} {ta : CircuitTermination}
    (hwf : wf db) (hnp : noPlaceholder db)
    (hA : firstTermination db pk TERM_SIDE_A = some ta)
    (hZ : firstTermination db pk TERM_SIDE_Z = none) :
    firstTermination (updateRow db { ta with term_side := TermSide.Z }) pk TERM_SIDE_A =
      none := by
  apply firstTermination_eq_none
  intro r' hr' hc hs
  obtain ⟨r, hr, rfl⟩ := mem_updateRow hr'
  by_cases h1 : r.id = ta.id
  · rw [setRow_pos { ta with term_side := TermSide.Z } h1] at hs
    cases hs
  · rw [setRow_neg { ta with term_side := TermSide.Z } h1] at hc hs
    have hrta : r = ta := only_termination_A hwf hnp hA hZ r hr hc
    exact h1 (congrArg CircuitTermination.id hrta)

theorem firstTermination_updateA_Z {db : DB} {pk : Nat} {ta : CircuitTermination}
    (hwf : wf db) (hnp : noPlaceholder db)
    (hA : firstTermination db pk TERM_SIDE_A = some ta)
    (hZ : firstTermination db pk TERM_SIDE_Z = none) :
    firstTermination (updateRow db { ta with term_side := TermSide.Z }) pk TERM_SIDE_Z =
      some { ta with term_side := TermSide.Z } := by
  obtain ⟨hup, hus⟩ := hwf
  obtain ⟨hamem, hac, has⟩ := firstTermination_some hA
  refine firstTermination_eq_of_unique (uniquePks_nodup (updateRow_uniquePks _ hup))
    (self_mem_updateRow hamem _ rfl) hac rfl ?_
  intro r' hr' hc hs
  obtain ⟨r, hr, rfl⟩ := mem_updateRow hr'
  by_cases h1 : r.id = ta.id
  · rw [setRow_pos { ta with term_side := TermSide.Z } h1]
  · rw [setRow_neg { ta with term_side := TermSide.Z } h1] at hc hs ⊢
    exact absurd ⟨hc, hs⟩ (firstTermination_none hZ r hr)

theorem firstTermination_updateZ_none {db : DB} {pk : Nat} {tz : CircuitTermination}
    (hwf : wf db) (hnp : noPlaceholder db)
    (hA : firstTermination db pk TERM_SIDE_A = none)
    (hZ : firstTermination db pk TERM_SIDE_Z = some tz) :
    firstTermination (updateRow db { tz with term_side := TermSide.A }) pk TERM_SIDE_Z =
      none := by
  apply firstTermination_eq_none
  intro r' hr' hc hs
  obtain ⟨r, hr, rfl⟩ := mem_updateRow hr'
  by_cases h1 : r.id = tz.id
  · rw [setRow_pos { tz with term_side := TermSide.A } h1] at hs
    cases hs
  · rw [setRow_neg { tz with term_side := TermSide.A } h1] at hc hs
    have hrtz : r = tz := only_termination_Z hwf hnp hA hZ r hr hc
    exact h1 (congrArg CircuitTermination.id hrtz)

theorem firstTermination_updateZ_A {db : DB} {pk : Nat} {tz : CircuitTermination}
    (hwf : wf db) (hnp : noPlaceholder db)
    (hA : firstTermination db pk TERM_SIDE_A = none)
    (hZ : firstTermination db pk TERM_SIDE_Z = some tz) :
    firstTermination (updateRow db { tz with term_side := TermSide.A }) pk TERM_SIDE_A =
      some { tz with term_side := TermSide.A } := by
  obtain ⟨hup, hus⟩ := hwf
  obtain ⟨hzmem, hzc, hzs⟩ := firstTermination_some hZ
  refine firstTermination_eq_of_unique (uniquePks_nodup (updateRow_uniquePks _ hup))
    (self_mem_updateRow hzmem _ rfl) hzc rfl ?_
  intro r' hr' hc hs
  obtain ⟨r, hr, rfl⟩ := mem_updateRow hr'
  by_cases h1 : r.id = tz.id
  · rw [setRow_pos { tz with term_side := TermSide.A } h1]
  · rw [setRow_neg { tz with term_side := TermSide.A } h1] at hc hs ⊢
    exact absurd ⟨hc, hs⟩ (firstTermination_none hA r hr)

theorem updateRow_roundtrip {db : DB} {t0 t1 : CircuitTermination}
    (hup : uniquePks db) (hmem : t0 ∈ db) (hid : t1.id = t0.id) :
    updateRow (updateRow db t1) t0 = db := by
  unfold updateRow
  rw [List.map_map]
  have hpt : ∀ r ∈ db, (setRow t0 ∘ setRow t1) r = id r := by
    intro r hr
    simp only [Function.comp_apply, id_eq]
    by_cases h1 : r.id = t1.id
    · rw [setRow_pos t1 h1, setRow_pos t0 hid]
      exact (unique_id_row hup hmem r hr (h1.trans hid)).symm
    · rw [setRow_neg t1 h1, setRow_neg t0 (fun h => h1 (h.trans hid.symm))]
  rw [List.map_congr_left hpt, List.map_id]

theorem swapLabel_involutive {db : DB} {pk : Nat} {ta tz : CircuitTermination}
    (hwf : wf db)
    (hA : firstTermination db pk TERM_SIDE_A = some ta)
    (hZ : firstTermination db pk TERM_SIDE_Z = some tz) :
    (db.map (swapLabel ta tz)).map
      (swapLabel { tz with term_side := TermSide.A } { ta with term_side := TermSide.Z }) =
      db := by
  obtain ⟨hup, hus⟩ := hwf
  obtain ⟨hamem, hac, has⟩ := firstTermination_some hA
  obtain ⟨hzmem, hzc, hzs⟩ := firstTermination_some hZ
  have hneid := distinct_pks_of_sides hup hA hZ
  rw [List.map_map]
  have hpt : ∀ r ∈ db,
      (swapLabel { tz with term_side := TermSide.A } { ta with term_side := TermSide.Z } ∘
        swapLabel ta tz) r = id r := by
    intro r hr
    simp only [Function.comp_apply, id_eq]
    by_cases h1 : r.id = ta.id
    · have hra : r = ta := unique_id_row hup hamem r hr h1
      have e1 : swapLabel ta tz r = { ta with term_side := TermSide.Z } := by
        unfold swapLabel
        rw [if_pos h1]
      have e2 : swapLabel { tz with term_side := TermSide.A } { ta with term_side := TermSide.Z }
          ({ ta with term_side := TermSide.Z } : CircuitTermination) =
          { { ta with term_side := TermSide.Z } with term_side := TermSide.A } :=
        swapLabel_tz (fun h => hneid h.symm)
      have e3 : ({ { ta with term_side := TermSide.Z } with term_side := TermSide.A } :
          CircuitTermination) = { ta with term_side := TermSide.A } := rfl
      rw [e1, e2, e3, eta_side has, hra]
    · by_cases h2 : r.id = tz.id
      · have hrz : r = tz := unique_id_row hup hzmem r hr h2
        have e1 : swapLabel ta tz r = { tz with term_side := TermSide.A } := by
          unfold swapLabel
          rw [if_neg h1, if_pos h2]
        have e2 : swapLabel { tz with term_side := TermSide.A } { ta with term_side := TermSide.Z }
            ({ tz with term_side := TermSide.A } : CircuitTermination) =
            { { tz with term_side := TermSide.A } with term_side := TermSide.Z } :=
          swapLabel_ta _ _
        have e3 : ({ { tz with term_side := TermSide.A } with term_side := TermSide.Z } :
            CircuitTermination) = { tz with term_side := TermSide.Z } := rfl
        rw [e1, e2, e3, eta_side hzs, hrz]
      · rw [swapLabel_other h1 h2]
        exact swapLabel_other h2 h1
  rw [List.map_congr_left hpt, List.map_id]

theorem swap_post_invariants (fault : Nat → Bool) (db : DB) (pk : Nat) (req : SwapRequest)
    (hwf : wf db) (hnp : noPlaceholder db) :
    wf (circuit_terminations_swap_fault fault db pk req).1 ∧
    noPlaceholder (circuit_terminations_swap_fault fault db pk req).1 := by
  by_cases hg : firstTermination db pk TERM_SIDE_A = none ∧
      firstTermination db pk TERM_SIDE_Z = none
  · rw [swap_view_guard hg.1 hg.2 req]
    exact ⟨hwf, hnp⟩
  · obtain ⟨p, v⟩ := req
    cases p with
    | false =>
      rw [swap_view_render hg (Or.inl rfl)]
      exact ⟨hwf, hnp⟩
    | true =>
      cases v with
      | false =>
        rw [swap_view_render hg (Or.inr rfl)]
        exact ⟨hwf, hnp⟩
      | true =>
        cases hA : firstTermination db pk TERM_SIDE_A with
        | none =>
          cases hZ : firstTermination db pk TERM_SIDE_Z with
          | none => exact absurd ⟨hA, hZ⟩ hg
          | some tz =>
            rw [swap_view_onlyZ hA hZ]
            cases hs : saveF (fault 0) db { tz with term_side := TermSide.A } with
            | error e => exact ⟨hwf, hnp⟩
            | ok db1 =>
              have hsave := saveF_ok_inv hs
              exact ⟨⟨save_uniquePks hsave hwf.1, save_uniqueSides hsave hwf.1 hwf.2⟩,
                save_noPlaceholder hsave hnp (fun h => TermSide.noConfusion h)⟩
        | some ta =>
          cases hZ : firstTermination db pk TERM_SIDE_Z with
          | none =>
            rw [swap_view_onlyA hA hZ]
            cases hs : saveF (fault 0) db { ta with term_side := TermSide.Z } with
            | error e => exact ⟨hwf, hnp⟩
            | ok db1 =>
              have hsave := saveF_ok_inv hs
              exact ⟨⟨save_uniquePks hsave hwf.1, save_uniqueSides hsave hwf.1 hwf.2⟩,
                save_noPlaceholder hsave hnp (fun h => TermSide.noConfusion h)⟩
          | some tz =>
            rw [swap_view_both hA hZ]
            cases hs1 : saveF (fault 0) db { ta with term_side := TermSide.underscore } with
            | error e => exact ⟨hwf, hnp⟩
            | ok db1 =>
              dsimp only
              cases hs2 : saveF (fault 1) db1 { tz with term_side := TermSide.A } with
              | error e => exact ⟨hwf, hnp⟩
              | ok db2 =>
                dsimp only
                cases hs3 : saveF (fault 2) db2 { ta with term_side := TermSide.Z } with
                | error e => exact ⟨hwf, hnp⟩
                | ok db3 =>
                  dsimp only
                  obtain ⟨s1, s2, s3, heq⟩ := swap_both_steps hwf hnp hA hZ
                  have e1 : db1 = updateRow db { ta with term_side := TermSide.underscore } :=
                    Except.ok.inj ((saveF_ok_inv hs1).symm.trans s1)
                  subst e1
                  have e2 : db2 = updateRow
                      (updateRow db { ta with term_side := TermSide.underscore })
                      { tz with term_side := TermSide.A } :=
                    Except.ok.inj ((saveF_ok_inv hs2).symm.trans s2)
                  subst e2
                  have e3 : db3 = db.map (swapLabel ta tz) :=
                    (Except.ok.inj ((saveF_ok_inv hs3).symm.trans s3)).trans heq
                  rw [e3]
                  exact ⟨swapLabel_wf hwf hnp hA hZ, swapLabel_noPlaceholder hnp⟩

theorem swap_frame (fault : Nat → Bool) (db : DB) (pk : Nat) (req : SwapRequest)
    (hup : uniquePks db) :
    (circuit_terminations_swap_fault fault db pk req).1.map (fun r => (r.id, r.circuit)) =
      db.map (fun r => (r.id, r.circuit)) := by
  by_cases hg : firstTermination db pk TERM_SIDE_A = none ∧
      firstTermination db pk TERM_SIDE_Z = none
  · rw [swap_view_guard hg.1 hg.2 req]
  · obtain ⟨p, v⟩ := req
    cases p with
    | false => rw [swap_view_render hg (Or.inl rfl)]
    | true =>
      cases v with
      | false => rw [swap_view_render hg (Or.inr rfl)]
      | true =>
        cases hA : firstTermination db pk TERM_SIDE_A with
        | none =>
          cases hZ : firstTermination db pk TERM_SIDE_Z with
          | none => exact absurd ⟨hA, hZ⟩ hg
          | some tz =>
            obtain ⟨hzmem, hzc, hzs⟩ := firstTermination_some hZ
            rw [swap_view_onlyZ hA hZ]
            cases hs : saveF (fault 0) db { tz with term_side := TermSide.A } with
            | error e => rfl
            | ok db1 => exact save_frame (saveF_ok_inv hs) hup ⟨tz, hzmem, rfl, rfl⟩
        | some ta =>
          cases hZ : firstTermination db pk TERM_SIDE_Z with
          | none =>
            obtain ⟨hamem, hac, has⟩ := firstTermination_some hA
            rw [swap_view_onlyA hA hZ]
            cases hs : saveF (fault 0) db { ta with term_side := TermSide.Z } with
            | error e => rfl
            | ok db1 => exact save_frame (saveF_ok_inv hs) hup ⟨ta, hamem, rfl, rfl⟩
          | some tz =>
            obtain ⟨hamem, hac, has⟩ := firstTermination_some hA
            obtain ⟨hzmem, hzc, hzs⟩ := firstTermination_some hZ
            rw [swap_view_both hA hZ]
            cases hs1 : saveF (fault 0) db { ta with term_side := TermSide.underscore } with
            | error e => rfl
            | ok db1 =>
              dsimp only
              have f1 := save_frame (saveF_ok_inv hs1) hup ⟨ta, hamem, rfl, rfl⟩
              have hup1 := pairmap_uniquePks f1 hup
              cases hs2 : saveF (fault 1) db1 { tz with term_side := TermSide.A } with
              | error e => rfl
              | ok db2 =>
                dsimp only
                obtain ⟨r2, hr2, hr2id, hr2c⟩ := pairmap_mem f1 hzmem
                have f2 := save_frame (saveF_ok_inv hs2) hup1 ⟨r2, hr2, hr2id, hr2c⟩
                have hup2 := pairmap_uniquePks f2 hup1
                cases hs3 : saveF (fault 2) db2 { ta with term_side := TermSide.Z } with
                | error e => rfl
                | ok db3 =>
                  dsimp only
                  obtain ⟨r3, hr3, hr3id, hr3c⟩ := pairmap_mem (f2.trans f1) hamem
                  have f3 := save_frame (saveF_ok_inv hs3) hup2 ⟨r3, hr3, hr3id, hr3c⟩
                  exact f3.trans (f2.trans f1)

example :
    circuit_terminations_swap [⟨1, 10, TermSide.A⟩, ⟨2, 10, TermSide.Z⟩] 10 ⟨true, true⟩ =
      ([⟨1, 10, TermSide.Z⟩, ⟨2, 10, TermSide.A⟩], .success_redirect 10) := by
  decide

example :
    circuit_terminations_swap [⟨1, 10, TermSide.A⟩] 10 ⟨true, true⟩ =
      ([⟨1, 10, TermSide.Z⟩], .success_redirect 10) := by
  decide

example :
    circuit_terminations_swap [] 10 ⟨true, true⟩ = ([], .error_redirect 10) := by
  decide

example :
    circuit_terminations_swap_fault (fun n => n == 1)
        [⟨1, 10, TermSide.A⟩, ⟨2, 10, TermSide.Z⟩] 10 ⟨true, true⟩ =
      ([⟨1, 10, TermSide.A⟩, ⟨2, 10, TermSide.Z⟩], .server_error) := by
  decide

/-- C1: for every circuit that has both a side-A and a side-Z termination,
after a confirmed swap the termination record formerly labeled A (the row
with primary key ta.id) is labeled Z, the record formerly labeled Z is
labeled A, and success is reported to the caller (a success-message
redirect to the circuit detail view). -/
theorem C1_confirmed_swap_exchanges_labels (db : DB) (pk : Nat)
    (ta tz : CircuitTermination) (hwf : wf db) (hnp : noPlaceholder db)
    (hA : firstTermination db pk TERM_SIDE_A = some ta)
    (hZ : firstTermination db pk TERM_SIDE_Z = some tz) :
    (circuit_terminations_swap db pk ⟨true, true⟩).2 = SwapResponse.success_redirect pk ∧
    rowById (circuit_terminations_swap db pk ⟨true, true⟩).1 ta.id =
      some { ta with term_side := TermSide.Z } ∧
    rowById (circuit_terminations_swap db pk ⟨true, true⟩).1 tz.id =
      some { tz with term_side := TermSide.A } := by
  obtain ⟨hamem, hac, has⟩ := firstTermination_some hA
  obtain ⟨hzmem, hzc, hzs⟩ := firstTermination_some hZ
  have hneid := distinct_pks_of_sides hwf.1 hA hZ
  have hrun : circuit_terminations_swap db pk ⟨true, true⟩ =
      (db.map (swapLabel ta tz), .success_redirect pk) :=
    swap_both_commit hwf hnp hA hZ rfl rfl rfl
  rw [hrun]
  refine ⟨rfl, ?_, ?_⟩
  · rw [show ((db.map (swapLabel ta tz), SwapResponse.success_redirect pk)).1 =
      db.map (swapLabel ta tz) from rfl,
      rowById_map (swapLabel_id ta tz) ta.id, rowById_eq_of_mem hwf.1 hamem]
    simp [swapLabel_ta]
  · rw [show ((db.map (swapLabel ta tz), SwapResponse.success_redirect pk)).1 =
      db.map (swapLabel ta tz) from rfl,
      rowById_map (swapLabel_id ta tz) tz.id, rowById_eq_of_mem hwf.1 hzmem]
    simp [swapLabel_tz hneid]

/-- Witness for C1 at a concrete two-termination circuit. -/
theorem C1_witness :
    (circuit_terminations_swap [⟨1, 10, TermSide.A⟩, ⟨2, 10, TermSide.Z⟩] 10
        ⟨true, true⟩).2 = SwapResponse.success_redirect 10 ∧
    rowById (circuit_terminations_swap [⟨1, 10, TermSide.A⟩, ⟨2, 10, TermSide.Z⟩] 10
        ⟨true, true⟩).1 1 = some ⟨1, 10, TermSide.Z⟩ ∧
    rowById (circuit_terminations_swap [⟨1, 10, TermSide.A⟩, ⟨2, 10, TermSide.Z⟩] 10
        ⟨true, true⟩).1 2 = some ⟨2, 10, TermSide.A⟩ :=
  C1_confirmed_swap_exchanges_labels [⟨1, 10, TermSide.A⟩, ⟨2, 10, TermSide.Z⟩] 10
    ⟨1, 10, TermSide.A⟩ ⟨2, 10, TermSide.Z⟩ (by decide) (by decide) rfl rfl

/-- C2: for every request shape and fault pattern, starting from a table
satisfying the unique-side invariant with no placeholder labels, the
externally observable post-state still has at most one side-A and one
side-Z termination per circuit and contains no placeholder label; the
placeholder exists only inside the uncommitted transaction. -/
theorem C2_observable_states_keep_invariant (fault : Nat → Bool) (db : DB) (pk : Nat)
    (req : SwapRequest) (hwf : wf db) (hnp : noPlaceholder db) :
    uniqueSides (circuit_terminations_swap_fault fault db pk req).1 ∧
    noPlaceholder (circuit_terminations_swap_fault fault db pk req).1 := by
  obtain ⟨h1, h2⟩ := swap_post_invariants fault db pk req hwf hnp
  exact ⟨h1.2, h2⟩

/-- Witness for C2 at a concrete two-termination circuit. -/
theorem C2_witness :
    uniqueSides (circuit_terminations_swap_fault (fun _ => false)
      [⟨1, 10, TermSide.A⟩, ⟨2, 10, TermSide.Z⟩] 10 ⟨true, true⟩).1 ∧
    noPlaceholder (circuit_terminations_swap_fault (fun _ => false)
      [⟨1, 10, TermSide.A⟩, ⟨2, 10, TermSide.Z⟩] 10 ⟨true, true⟩).1 :=
  C2_observable_states_keep_invariant (fun _ => false)
    [⟨1, 10, TermSide.A⟩, ⟨2, 10, TermSide.Z⟩] 10 ⟨true, true⟩ (by decide) (by decide)

/-- C3: when any of the three persistence steps of the both-present swap
transaction fails (in particular the second), the whole transaction rolls
back: the committed table equals the pre-state exactly and the operation
surfaces as a generic failure. -/
theorem C3_step_failure_rolls_back (fault : Nat → Bool) (db : DB) (pk : Nat)
    (ta tz : CircuitTermination) (hwf : wf db) (hnp : noPlaceholder db)
    (hA : firstTermination db pk TERM_SIDE_A = some ta)
    (hZ : firstTermination db pk TERM_SIDE_Z = some tz)
    (hf : fault 0 = true ∨ fault 1 = true ∨ fault 2 = true) :
    circuit_terminations_swap_fault fault db pk ⟨true, true⟩ =
      (db, SwapResponse.server_error) :=
  swap_both_abort hwf hnp hA hZ hf

/-- Witness for C3: the second persistence step fails on a concrete circuit. -/
theorem C3_witness :
    circuit_terminations_swap_fault (fun n => decide (n = 1))
        [⟨1, 10, TermSide.A⟩, ⟨2, 10, TermSide.Z⟩] 10 ⟨true, true⟩ =
      ([⟨1, 10, TermSide.A⟩, ⟨2, 10, TermSide.Z⟩], SwapResponse.server_error) :=
  C3_step_failure_rolls_back (fun n => decide (n = 1))
    [⟨1, 10, TermSide.A⟩, ⟨2, 10, TermSide.Z⟩] 10 ⟨1, 10, TermSide.A⟩ ⟨2, 10, TermSide.Z⟩
    (by decide) (by decide) rfl rfl (Or.inr (Or.inl rfl))

/-- C4: for a circuit with exactly one termination, a confirmed swap
relabels it to the opposite side (A becomes Z, Z becomes A); afterwards
the circuit has exactly one termination, which is the original record with
the flipped label. -/
theorem C4_single_termination_flips (db : DB) (pk : Nat) (hwf : wf db)
    (hnp : noPlaceholder db) :
    (∀ ta, firstTermination db pk TERM_SIDE_A = some ta →
      firstTermination db pk TERM_SIDE_Z = none →
      (circuit_terminations_swap db pk ⟨true, true⟩).2 = SwapResponse.success_redirect pk ∧
      (circuit_terminations_swap db pk ⟨true, true⟩).1.filter
        (fun r => decide (r.circuit = pk)) = [{ ta with term_side := TermSide.Z }]) ∧
    (∀ tz, firstTermination db pk TERM_SIDE_A = none →
      firstTermination db pk TERM_SIDE_Z = some tz →
      (circuit_terminations_swap db pk ⟨true, true⟩).2 = SwapResponse.success_redirect pk ∧
      (circuit_terminations_swap db pk ⟨true, true⟩).1.filter
        (fun r => decide (r.circuit = pk)) = [{ tz with term_side := TermSide.A }]) := by
  constructor
  · intro ta hA hZ
    obtain ⟨hamem, hac, has⟩ := firstTermination_some hA
    have hrun : circuit_terminations_swap db pk ⟨true, true⟩ =
        (updateRow db { ta with term_side := TermSide.Z }, .success_redirect pk) :=
      swap_onlyA_commit hA hZ rfl
    rw [hrun]
    exact ⟨rfl, filter_circuit_updateRow_single hwf.1 hamem hac
      (only_termination_A hwf hnp hA hZ) rfl hac⟩
  · intro tz hA hZ
    obtain ⟨hzmem, hzc, hzs⟩ := firstTermination_some hZ
    have hrun : circuit_terminations_swap db pk ⟨true, true⟩ =
        (updateRow db { tz with term_side := TermSide.A }, .success_redirect pk) :=
      swap_onlyZ_commit hA hZ rfl
    rw [hrun]
    exact ⟨rfl, filter_circuit_updateRow_single hwf.1 hzmem hzc
      (only_termination_Z hwf hnp hA hZ) rfl hzc⟩

/-- Witness for C4 at concrete one-termination circuits, one per side. -/
theorem C4_witness :
    ((circuit_terminations_swap [⟨1, 10, TermSide.A⟩] 10 ⟨true, true⟩).2 =
        SwapResponse.success_redirect 10 ∧
      (circuit_terminations_swap [⟨1, 10, TermSide.A⟩] 10 ⟨true, true⟩).1.filter
        (fun r => decide (r.circuit = 10)) = [⟨1, 10, TermSide.Z⟩]) ∧
    ((circuit_terminations_swap [⟨2, 10, TermSide.Z⟩] 10 ⟨true, true⟩).2 =
        SwapResponse.success_redirect 10 ∧
      (circuit_terminations_swap [⟨2, 10, TermSide.Z⟩] 10 ⟨true, true⟩).1.filter
        (fun r => decide (r.circuit = 10)) = [⟨2, 10, TermSide.A⟩]) :=
  ⟨(C4_single_termination_flips [⟨1, 10, TermSide.A⟩] 10 (by decide) (by decide)).1
      ⟨1, 10, TermSide.A⟩ rfl rfl,
    (C4_single_termination_flips [⟨2, 10, TermSide.Z⟩] 10 (by decide) (by decide)).2
      ⟨2, 10, TermSide.Z⟩ rfl rfl⟩

/-- C5: for a circuit with no terminations, any request (of any method,
form validity or fault pattern) is rejected up front: the table is
unchanged, an error-message redirect to the circuit detail view is
returned, and the termination count of the circuit stays 0. -/
theorem C5_no_terminations_rejected (fault : Nat → Bool) (db : DB) (pk : Nat)
    (req : SwapRequest) (hnp : noPlaceholder db)
    (hA : firstTermination db pk TERM_SIDE_A = none)
    (hZ : firstTermination db pk TERM_SIDE_Z = none) :
    circuit_terminations_swap_fault fault db pk req = (db, SwapResponse.error_redirect pk) ∧
    terminationCount (circuit_terminations_swap_fault fault db pk req).1 pk = 0 := by
  have hview : circuit_terminations_swap_fault fault db pk req =
      (db, SwapResponse.error_redirect pk) := swap_view_guard hA hZ req
  refine ⟨hview, ?_⟩
  rw [hview]
  show terminationCount db pk = 0
  unfold terminationCount
  rw [List.length_eq_zero, List.filter_eq_nil_iff]
  intro r hr hpr
  have hc : r.circuit = pk := of_decide_eq_true hpr
  cases hrs : r.term_side with
  | A => exact firstTermination_none hA r hr ⟨hc, hrs⟩
  | Z => exact firstTermination_none hZ r hr ⟨hc, hrs⟩
  | underscore => exact hnp r hr hrs

/-- Witness for C5 on an empty table, both for an unconfirmed and for a
confirmed request. -/
theorem C5_witness :
    (circuit_terminations_swap [] 7 ⟨true, true⟩ = ([], SwapResponse.error_redirect 7) ∧
      terminationCount (circuit_terminations_swap [] 7 ⟨true, true⟩).1 7 = 0) ∧
    (circuit_terminations_swap [] 7 ⟨false, false⟩ = ([], SwapResponse.error_redirect 7) ∧
      terminationCount (circuit_terminations_swap [] 7 ⟨false, false⟩).1 7 = 0) :=
  ⟨C5_no_terminations_rejected (fun _ => false) [] 7 ⟨true, true⟩ (by decide) rfl rfl,
    C5_no_terminations_rejected (fun _ => false) [] 7 ⟨false, false⟩ (by decide) rfl rfl⟩

/-- C6: for every circuit with both terminations present, applying the
confirmed swap twice in succession restores the table exactly, so in
particular the original side labeling of both termination records. -/
theorem C6_double_swap_restores (db : DB) (pk : Nat) (ta tz : CircuitTermination)
    (hwf : wf db) (hnp : noPlaceholder db)
    (hA : firstTermination db pk TERM_SIDE_A = some ta)
    (hZ : firstTermination db pk TERM_SIDE_Z = some tz) :
    (circuit_terminations_swap
      (circuit_terminations_swap db pk ⟨true, true⟩).1 pk ⟨true, true⟩).1 = db := by
  have h1 : circuit_terminations_swap db pk ⟨true, true⟩ =
      (db.map (swapLabel ta tz), .success_redirect pk) :=
    swap_both_commit hwf hnp hA hZ rfl rfl rfl
  rw [h1]
  dsimp only
  have hwf1 := swapLabel_wf hwf hnp hA hZ
  have hnp1 : noPlaceholder (db.map (swapLabel ta tz)) := swapLabel_noPlaceholder hnp
  have hA1 := firstTermination_swapLabel_A hwf hnp hA hZ
  have hZ1 := firstTermination_swapLabel_Z hwf hnp hA hZ
  have h2 : circuit_terminations_swap (db.map (swapLabel ta tz)) pk ⟨true, true⟩ =
      ((db.map (swapLabel ta tz)).map
        (swapLabel { tz with term_side := TermSide.A } { ta with term_side := TermSide.Z }),
        .success_redirect pk) :=
    swap_both_commit hwf1 hnp1 hA1 hZ1 rfl rfl rfl
  rw [h2]
  exact swapLabel_involutive hwf hA hZ

/-- Witness for C6 at a concrete two-termination circuit. -/
theorem C6_witness :
    (circuit_terminations_swap
      (circuit_terminations_swap [⟨1, 10, TermSide.A⟩, ⟨2, 10, TermSide.Z⟩] 10
        ⟨true, true⟩).1 10 ⟨true, true⟩).1 =
      [⟨1, 10, TermSide.A⟩, ⟨2, 10, TermSide.Z⟩] :=
  C6_double_swap_restores [⟨1, 10, TermSide.A⟩, ⟨2, 10, TermSide.Z⟩] 10
    ⟨1, 10, TermSide.A⟩ ⟨2, 10, TermSide.Z⟩ (by decide) (by decide) rfl rfl

/-- C7 counterexample: the claim as stated fails on a circuit with no
terminations: an unconfirmed (non-POST) swap request mutates nothing but
does not render the confirmation prompt - the view rejects it up front
with the error-message redirect. -/
theorem C7_counterexample :
    (circuit_terminations_swap [] 1 ⟨false, false⟩).1 = [] ∧
    (circuit_terminations_swap [] 1 ⟨false, false⟩).2 = SwapResponse.error_redirect 1 ∧
    (circuit_terminations_swap [] 1 ⟨false, false⟩).2 ≠ SwapResponse.render_form := by
  decide

/-- C7 amended: for every request, an unconfirmed (non-POST) request and a
POST whose confirmation form fails validation mutate nothing; when the
circuit has at least one termination such a request renders the
confirmation prompt. -/
theorem C7_amended_no_mutation_without_valid_post (fault : Nat → Bool) (db : DB)
    (pk : Nat) (req : SwapRequest)
    (hreq : req.is_post = false ∨ req.form_valid = false) :
    (circuit_terminations_swap_fault fault db pk req).1 = db ∧
    (¬(firstTermination db pk TERM_SIDE_A = none ∧
        firstTermination db pk TERM_SIDE_Z = none) →
      (circuit_terminations_swap_fault fault db pk req).2 = SwapResponse.render_form) := by
  by_cases hg : firstTermination db pk TERM_SIDE_A = none ∧
      firstTermination db pk TERM_SIDE_Z = none
  · rw [swap_view_guard hg.1 hg.2 req]
    exact ⟨rfl, fun h => absurd hg h⟩
  · rw [swap_view_render hg hreq]
    exact ⟨rfl, fun _ => rfl⟩

/-- Witness for the amended C7: a GET request on a one-termination circuit
mutates nothing and renders the confirmation prompt. -/
theorem C7_witness :
    (circuit_terminations_swap [⟨1, 10, TermSide.A⟩] 10 ⟨false, true⟩).1 =
      [⟨1, 10, TermSide.A⟩] ∧
    (circuit_terminations_swap [⟨1, 10, TermSide.A⟩] 10 ⟨false, true⟩).2 =
      SwapResponse.render_form :=
  ⟨(C7_amended_no_mutation_without_valid_post (fun _ => false) [⟨1, 10, TermSide.A⟩] 10
      ⟨false, true⟩ (Or.inl rfl)).1,
    (C7_amended_no_mutation_without_valid_post (fun _ => false) [⟨1, 10, TermSide.A⟩] 10
      ⟨false, true⟩ (Or.inl rfl)).2 (by decide)⟩

/-- C8: the swap view only relabels existing termination rows: under any
request shape and fault pattern, every row keeps its primary key and its
circuit, no row is created or deleted, the table length is unchanged and
every circuit keeps its termination count. -/
theorem C8_swap_only_relabels (fault : Nat → Bool) (db : DB) (pk : Nat)
    (req : SwapRequest) (hup : uniquePks db) :
    (circuit_terminations_swap_fault fault db pk req).1.map (fun r => (r.id, r.circuit)) =
      db.map (fun r => (r.id, r.circuit)) ∧
    (circuit_terminations_swap_fault fault db pk req).1.length = db.length ∧
    (∀ c, terminationCount (circuit_terminations_swap_fault fault db pk req).1 c =
      terminationCount db c) := by
  have h := swap_frame fault db pk req hup
  exact ⟨h, pairmap_length h, fun c => pairmap_count h c⟩

/-- Witness for C8 at a concrete two-termination circuit. -/
theorem C8_witness :
    (circuit_terminations_swap_fault (fun _ => false)
        [⟨1, 10, TermSide.A⟩, ⟨2, 10, TermSide.Z⟩] 10 ⟨true, true⟩).1.map
      (fun r => (r.id, r.circuit)) =
      ([⟨1, 10, TermSide.A⟩, ⟨2, 10, TermSide.Z⟩] : DB).map (fun r => (r.id, r.circuit)) ∧
    (circuit_terminations_swap_fault (fun _ => false)
        [⟨1, 10, TermSide.A⟩, ⟨2, 10, TermSide.Z⟩] 10 ⟨true, true⟩).1.length =
      ([⟨1, 10, TermSide.A⟩, ⟨2, 10, TermSide.Z⟩] : DB).length ∧
    (∀ c, terminationCount (circuit_terminations_swap_fault (fun _ => false)
        [⟨1, 10, TermSide.A⟩, ⟨2, 10, TermSide.Z⟩] 10 ⟨true, true⟩).1 c =
      terminationCount [⟨1, 10, TermSide.A⟩, ⟨2, 10, TermSide.Z⟩] c) :=
  C8_swap_only_relabels (fun _ => false) [⟨1, 10, TermSide.A⟩, ⟨2, 10, TermSide.Z⟩] 10
    ⟨true, true⟩ (by decide)

/-- C9: under any request shape and fault pattern, the committed table
contains no termination labeled with the placeholder: every termination
ends with side A or Z; the placeholder exists only transiently inside the
uncommitted both-present transaction. -/
theorem C9_committed_state_has_no_placeholder (fault : Nat → Bool) (db : DB) (pk : Nat)
    (req : SwapRequest) (hwf : wf db) (hnp : noPlaceholder db) :
    noPlaceholder (circuit_terminations_swap_fault fault db pk req).1 :=
  (swap_post_invariants fault db pk req hwf hnp).2

/-- Witness for C9 at a concrete two-termination circuit. -/
theorem C9_witness :
    noPlaceholder (circuit_terminations_swap_fault (fun _ => false)
      [⟨1, 10, TermSide.A⟩, ⟨2, 10, TermSide.Z⟩] 10 ⟨true, true⟩).1 :=
  C9_committed_state_has_no_placeholder (fun _ => false)
    [⟨1, 10, TermSide.A⟩, ⟨2, 10, TermSide.Z⟩] 10 ⟨true, true⟩ (by decide) (by decide)

/-- C10: for a circuit with exactly one termination, applying the confirmed
swap twice in succession restores the table exactly (A to Z and back, or
Z to A and back). -/
theorem C10_single_double_swap_restores (db : DB) (pk : Nat) (hwf : wf db)
    (hnp : noPlaceholder db) :
    (∀ ta, firstTermination db pk TERM_SIDE_A = some ta →
      firstTermination db pk TERM_SIDE_Z = none →
      (circuit_terminations_swap
        (circuit_terminations_swap db pk ⟨true, true⟩).1 pk ⟨true, true⟩).1 = db) ∧
    (∀ tz, firstTermination db pk TERM_SIDE_A = none →
      firstTermination db pk TERM_SIDE_Z = some tz →
      (circuit_terminations_swap
        (circuit_terminations_swap db pk ⟨true, true⟩).1 pk ⟨true, true⟩).1 = db) := by
  constructor
  · intro ta hA hZ
    obtain ⟨hamem, hac, has⟩ := firstTermination_some hA
    have h1 : circuit_terminations_swap db pk ⟨true, true⟩ =
        (updateRow db { ta with term_side := TermSide.Z }, .success_redirect pk) :=
      swap_onlyA_commit hA hZ rfl
    rw [h1]
    dsimp only
    have hA1 := firstTermination_updateA_none hwf hnp hA hZ
    have hZ1 := firstTermination_updateA_Z hwf hnp hA hZ
    have h2 : circuit_terminations_swap
        (updateRow db { ta with term_side := TermSide.Z }) pk ⟨true, true⟩ =
        (updateRow (updateRow db { ta with term_side := TermSide.Z })
          { { ta with term_side := TermSide.Z } with term_side := TermSide.A },
          .success_redirect pk) :=
      swap_onlyZ_commit hA1 hZ1 rfl
    rw [h2]
    dsimp only
    have e : ({ { ta with term_side := TermSide.Z } with term_side := TermSide.A } :
        CircuitTermination) = ta := by
      have e0 : ({ { ta with term_side := TermSide.Z } with term_side := TermSide.A } :
          CircuitTermination) = { ta with term_side := TermSide.A } := rfl
      rw [e0, eta_side has]
    rw [e]
    exact updateRow_roundtrip hwf.1 hamem rfl
  · intro tz hA hZ
    obtain ⟨hzmem, hzc, hzs⟩ := firstTermination_some hZ
    have h1 : circuit_terminations_swap db pk ⟨true, true⟩ =
        (updateRow db { tz with term_side := TermSide.A }, .success_redirect pk) :=
      swap_onlyZ_commit hA hZ rfl
    rw [h1]
    dsimp only
    have hZ1 := firstTermination_updateZ_none hwf hnp hA hZ
    have hA1 := firstTermination_updateZ_A hwf hnp hA hZ
    have h2 : circuit_terminations_swap
        (updateRow db { tz with term_side := TermSide.A }) pk ⟨true, true⟩ =
        (updateRow (updateRow db { tz with term_side := TermSide.A })
          { { tz with term_side := TermSide.A } with term_side := TermSide.Z },
          .success_redirect pk) :=
      swap_onlyA_commit hA1 hZ1 rfl
    rw [h2]
    dsimp only
    have e : ({ { tz with term_side := TermSide.A } with term_side := TermSide.Z } :
        CircuitTermination) = tz := by
      have e0 : ({ { tz with term_side := TermSide.A } with term_side := TermSide.Z } :
          CircuitTermination) = { tz with term_side := TermSide.Z } := rfl
      rw [e0, eta_side hzs]
    rw [e]
    exact updateRow_roundtrip hwf.1 hzmem rfl

/-- Witness for C10 at concrete one-termination circuits, one per side. -/
theorem C10_witness :
    (circuit_terminations_swap
      (circuit_terminations_swap [⟨1, 10, TermSide.A⟩] 10 ⟨true, true⟩).1 10
      ⟨true, true⟩).1 = [⟨1, 10, TermSide.A⟩] ∧
    (circuit_terminations_swap
      (circuit_terminations_swap [⟨2, 10, TermSide.Z⟩] 10 ⟨true, true⟩).1 10
      ⟨true, true⟩).1 = [⟨2, 10, TermSide.Z⟩] :=
  ⟨(C10_single_double_swap_restores [⟨1, 10, TermSide.A⟩] 10 (by decide) (by decide)).1
      ⟨1, 10, TermSide.A⟩ rfl rfl,
    (C10_single_double_swap_restores [⟨2, 10, TermSide.Z⟩] 10 (by decide) (by decide)).2
      ⟨2, 10, TermSide.Z⟩ rfl rfl⟩
